import Mathlib

/-!
Shallow embedding of `fairseq/tasks/cross_lingual_lm.py` (class
`CrossLingualLMTask`): the language-to-id mapping built at construction
time and the `load_dataset` split-loading procedure, together with proofs
of the specification's claims about them.

Python dictionaries keyed by strings are embedded as association lists
with insert-or-overwrite-in-place semantics (`dictInsert`), which models
both the value update and the preservation of first-insertion key order
that `dict` guarantees.  The filesystem is embedded as a pair of
existence predicates (one per shard format); dataset constructors are
embedded as inert records carrying exactly the configuration the Python
constructors receive.
-/

set_option autoImplicit false

namespace CrossLingualLM

/-- Insert-or-overwrite for a Python-`dict`-like association list:
`d[k] = v` replaces the value in place when `k` is already a key
(keeping its position) and appends `(k, v)` otherwise. -/
def dictInsert {α : Type} (d : List (String × α)) (k : String) (v : α) :
    List (String × α) :=
  match d with
  | [] => [(k, v)]
  | (k', v') :: rest =>
    if k' = k then (k, v) :: rest else (k', v') :: dictInsert rest k v

/-- Lookup in a Python-`dict`-like association list (`d[k]` / `d.get(k)`). -/
def dictLookup {α : Type} (d : List (String × α)) (k : String) : Option α :=
  match d with
  | [] => none
  | (k', v) :: rest => if k' = k then some v else dictLookup rest k

/-- Python's `enumerate(xs)` starting at index `i`. -/
def pyEnumerate (i : Nat) : List String → List (Nat × String)
  | [] => []
  | x :: xs => (i, x) :: pyEnumerate (i + 1) xs

/-- Python's `s.split(',')` on a character list: every comma is a
separator, empty fields are kept, and the empty input yields `[""]`. -/
def splitOnComma : List Char → List (List Char)
  | [] => [[]]
  | c :: rest =>
    if c = ',' then [] :: splitOnComma rest
    else
      match splitOnComma rest with
      | [] => [[c]]
      | w :: ws => (c :: w) :: ws

/-- Drop leading whitespace characters. -/
def dropLeadingSpace : List Char → List Char
  | [] => []
  | c :: cs => if c.isWhitespace then dropLeadingSpace cs else c :: cs

/-- Python's `s.strip()` on a character list: drop whitespace from both
ends. -/
def pyStrip (cs : List Char) : List Char :=
  (dropLeadingSpace (dropLeadingSpace cs.reverse).reverse)

/-- The trimmed token list `[l.strip() for l in languages.split(',')]`. -/
def trimmedLangs (languages : String) : List String :=
  (splitOnComma languages.data).map (fun cs => String.mk (pyStrip cs))

/-- `CrossLingualLMTask._lang_to_id`: split the comma-separated language
string, strip whitespace around each token, and assign ids by
enumeration order via `lang2id[lang] = id`. -/
def lang_to_id (languages : String) : List (String × Nat) :=
  let langs := trimmedLangs languages
  (pyEnumerate 0 langs).foldl (fun d p => dictInsert d p.2 p.1) []

/-- The configuration bundle (`args`) fields this task reads.
`shuffle` is an `Option Bool`: `none` models an `args` namespace with no
`shuffle` attribute at all (the code reads it via
`getattr(self.args, 'shuffle', False)`). -/
structure Args where
  data : String
  tokens_per_sample : Int
  monolingual_langs : String
  raw_text : Bool
  lazy_load : Bool
  shuffle : Option Bool
  seed : Int
  distributed_world_size : Nat
deriving DecidableEq

/-- The vocabulary (`MaskedLMDictionary`), reduced to the reserved
indices this task reads: `pad()`, `eos()`, `mask()`. -/
structure Dictionary where
  pad : Nat
  eos : Nat
  mask : Nat
deriving DecidableEq

/-- The shard dataset object constructed for one language: one of
`IndexedRawTextDataset(path, dictionary)`,
`IndexedDataset(path, fix_lua_indexing=True)` (lazy), or
`IndexedCachedDataset(path, fix_lua_indexing=True)` (fully cached). -/
inductive ShardDataset where
  | rawText (path : String) (dictionary : Dictionary)
  | indexedLazy (path : String) (fix_lua_indexing : Bool)
  | indexedCached (path : String) (fix_lua_indexing : Bool)
deriving DecidableEq

/-- The `TokenBlockDataset` wrapper, carrying the configuration the
constructor receives from this task. -/
structure TokenBlockDataset where
  dataset : ShardDataset
  block_size : Int
  pad : Nat
  eos : Nat
deriving DecidableEq

/-- The `MaskedLMDataset` wrapper, carrying the configuration the
constructor receives from this task. -/
structure MaskedLMDataset where
  dataset : TokenBlockDataset
  vocab : Dictionary
  pad_idx : Nat
  mask_idx : Nat
  classif_token_idx : Nat
  sep_token_idx : Nat
  shuffle : Bool
  has_pairs : Bool
  segment_id : Nat
  seed : Int
deriving DecidableEq

/-- The merged `MultiCorpusSampledDataset` registered per split. -/
structure MultiCorpusSampledDataset where
  dataset_map : List (String × MaskedLMDataset)
  default_key : Option String
deriving DecidableEq

/-- The filesystem, seen through the two existence checks the code
performs: `IndexedRawTextDataset.exists(path)` and
`IndexedDataset.exists(path)`. -/
structure FileSystem where
  rawTextExists : String → Bool
  indexedExists : String → Bool

/-- The `FileNotFoundError('Dataset not found: {} ({})')` raised when a
shard is missing, carrying the `split.lang` name and the data directory. -/
structure LoadError where
  language_split : String
  data_dir : String
deriving DecidableEq

/-- The formatted error message, naming split, language and directory. -/
def LoadError.message (e : LoadError) : String :=
  "Dataset not found: " ++ e.language_split ++ " (" ++ e.data_dir ++ ")"

/-- The task instance state: configuration, vocabulary, the
language-to-id mapping, the mutable `default_key` field, and the
per-split dataset registry `self.datasets` owned by the task base class. -/
structure CrossLingualLMTask where
  args : Args
  dictionary : Dictionary
  seed : Int
  distributed_world_size : Nat
  langs2id : List (String × Nat)
  default_key : Option String
  datasets : List (String × MultiCorpusSampledDataset)
deriving DecidableEq

/-- `CrossLingualLMTask.__init__`: stores the configuration and
vocabulary, builds `langs2id` from the comma-separated language list,
and initialises `default_key` to `None` and the registry to empty. -/
def CrossLingualLMTask.init (args : Args) (dictionary : Dictionary) :
    CrossLingualLMTask :=
  { args := args
    dictionary := dictionary
    seed := args.seed
    distributed_world_size := args.distributed_world_size
    langs2id := lang_to_id args.monolingual_langs
    default_key := none
    datasets := [] }

/-- `os.path.join(a, b)` for the simple relative-path case used here. -/
def pathJoin (a b : String) : String := a ++ "/" ++ b

/-- Shard resolution for one path: raw-text shard when raw-text mode is
set and such a shard exists; binary-indexed shard (lazy or fully
cached, per the lazy-load flag) when raw-text mode is off and such a
shard exists; `none` otherwise. -/
def resolveShard (args : Args) (dictionary : Dictionary) (fs : FileSystem)
    (path : String) : Option ShardDataset :=
  if args.raw_text && fs.rawTextExists path then
    some (ShardDataset.rawText path dictionary)
  else if !args.raw_text && fs.indexedExists path then
    if args.lazy_load then some (ShardDataset.indexedLazy path true)
    else some (ShardDataset.indexedCached path true)
  else none

/-- The per-language body of the `load_dataset` loop: compose the shard
path `<data>/<split>.<lang>`, resolve the shard, and on success wrap it
in the `TokenBlockDataset` (block size `tokens_per_sample - 1`, pad/eos
boundary markers) and the `MaskedLMDataset` (eos as classification and
separator token, no pairs, the language's segment id, the task seed). -/
def loadLanguage (args : Args) (dictionary : Dictionary) (seed : Int)
    (segId : Nat) (fs : FileSystem) (split lang : String) :
    Except LoadError MaskedLMDataset :=
  let language_split := split ++ "." ++ lang
  let path := pathJoin args.data language_split
  match resolveShard args dictionary fs path with
  | none => Except.error ⟨language_split, args.data⟩
  | some ds =>
    let block_dataset : TokenBlockDataset :=
      { dataset := ds
        block_size := args.tokens_per_sample - 1
        pad := dictionary.pad
        eos := dictionary.eos }
    Except.ok
      { dataset := block_dataset
        vocab := dictionary
        pad_idx := dictionary.pad
        mask_idx := dictionary.mask
        classif_token_idx := dictionary.eos
        sep_token_idx := dictionary.eos
        shuffle := args.shuffle.getD false
        has_pairs := false
        segment_id := segId
        seed := seed }

/-- The fully wrapped per-language dataset that the loop body constructs
from a resolved shard `ds`: the `TokenBlockDataset` (block size
`tokens_per_sample - 1`, pad/eos boundary markers) inside the
`MaskedLMDataset` (eos as classification and separator token, no pairs,
the language's segment id, the task seed). `loadLanguage` returns
exactly this record on success. -/
def builtDataset (args : Args) (dictionary : Dictionary) (seed : Int)
    (segId : Nat) (ds : ShardDataset) : MaskedLMDataset :=
  { dataset := { dataset := ds
                 block_size := args.tokens_per_sample - 1
                 pad := dictionary.pad
                 eos := dictionary.eos }
    vocab := dictionary
    pad_idx := dictionary.pad
    mask_idx := dictionary.mask
    classif_token_idx := dictionary.eos
    sep_token_idx := dictionary.eos
    shuffle := args.shuffle.getD false
    has_pairs := false
    segment_id := segId
    seed := seed }

/-- The `load_dataset` loop over `self.langs2id` entries, threading the
mutable `default_key` (set to the first iterated language when still
`None`), the ordered `dataset_map` accumulator, and the list of shard
paths whose existence was checked on disk (the filesystem scan trace).
On a missing shard it stops with the error, as the Python `raise` does. -/
def loadLoop (args : Args) (dictionary : Dictionary) (seed : Int)
    (fs : FileSystem) (split : String) :
    List (String × Nat) → Option String → List (String × MaskedLMDataset) →
    List String →
    Option String × List String ×
      Except LoadError (List (String × MaskedLMDataset))
  | [], dk, acc, scanned => (dk, scanned, Except.ok acc)
  | (lang, segId) :: rest, dk, acc, scanned =>
    let dk' := if dk.isNone then some lang else dk
    let path := pathJoin args.data (split ++ "." ++ lang)
    match loadLanguage args dictionary seed segId fs split lang with
    | Except.error e => (dk', scanned ++ [path], Except.error e)
    | Except.ok m =>
      loadLoop args dictionary seed fs split rest dk' (acc ++ [(lang, m)])
        (scanned ++ [path])

/-- The outcome of one `load_dataset` call: the task instance state
after the call (mutated even when the call raises), the scan trace, and
the raised error if any. -/
structure LoadResult where
  task : CrossLingualLMTask
  scanned : List String
  error : Option LoadError
deriving DecidableEq

/-- `CrossLingualLMTask.load_dataset(split)`: run the per-language loop;
on success register the merged `MultiCorpusSampledDataset` (built from
the ordered map and the instance's `default_key`) in `self.datasets`
under the split name; on error propagate it, leaving the registry
untouched but keeping the `default_key` mutation. -/
def load_dataset (t : CrossLingualLMTask) (fs : FileSystem) (split : String) :
    LoadResult :=
  match loadLoop t.args t.dictionary t.seed fs split t.langs2id t.default_key
      [] [] with
  | (dk, scanned, Except.error e) =>
    { task := { t with default_key := dk }, scanned := scanned,
      error := some e }
  | (dk, scanned, Except.ok dmap) =>
    { task := { t with
        default_key := dk
        datasets := dictInsert t.datasets split ⟨dmap, dk⟩ }
      scanned := scanned
      error := none }

/-- Replace the `shuffle` attribute of a task's configuration bundle
(`none` removes the attribute, modelling an `args` without it). -/
def setShuffle (t : CrossLingualLMTask) (s : Option Bool) :
    CrossLingualLMTask :=
  { t with args := { t.args with shuffle := s } }

/-! ### Concrete instances used to exercise the definitions -/

/-- A binary-indexed-mode configuration with languages `en,fr`. -/
def args0 : Args :=
  { data := "data", tokens_per_sample := 128, monolingual_langs := "en,fr",
    raw_text := false, lazy_load := false, shuffle := some false, seed := 1,
    distributed_world_size := 1 }

/-- A small vocabulary. -/
def dict0 : Dictionary := { pad := 1, eos := 2, mask := 3 }

/-- A freshly constructed task over `args0` and `dict0`. -/
def t0 : CrossLingualLMTask := CrossLingualLMTask.init args0 dict0

/-- A filesystem holding binary-indexed shards `data/train.en` and
`data/train.fr`. -/
def fs1 : FileSystem :=
  { rawTextExists := fun _ => false,
    indexedExists := fun p => p == "data/train.en" || p == "data/train.fr" }

/-- An empty filesystem: no shard of either format exists anywhere. -/
def fs0 : FileSystem :=
  { rawTextExists := fun _ => false, indexedExists := fun _ => false }

/-- A placeholder `MaskedLMDataset` used only as a `getD` default. -/
def mlmDefault : MaskedLMDataset :=
  { dataset := { dataset := ShardDataset.rawText "" dict0, block_size := 0,
                 pad := 0, eos := 0 }
    vocab := dict0, pad_idx := 0, mask_idx := 0, classif_token_idx := 0,
    sep_token_idx := 0, shuffle := false, has_pairs := false,
    segment_id := 0, seed := 0 }

/-- The merged dataset registered for split `train` after loading `t0`
against `fs1`. -/
def mc0 : MultiCorpusSampledDataset :=
  (dictLookup (load_dataset t0 fs1 "train").task.datasets "train").getD
    ⟨[], none⟩

/-- The per-language dataset for `en` inside `mc0`. -/
def m0 : MaskedLMDataset := (dictLookup mc0.dataset_map "en").getD mlmDefault

/-! ### Lemmas about the dictionary embedding -/

theorem dictLookup_dictInsert {α : Type} (d : List (String × α)) (k k' : String)
    (v : α) :
    dictLookup (dictInsert d k v) k' =
      if k = k' then some v else dictLookup d k' := by
  induction d with
  | nil => simp [dictInsert, dictLookup]
  | cons p rest ih =>
    obtain ⟨k₀, v₀⟩ := p
    by_cases h0 : k₀ = k
    · subst h0
      by_cases h1 : k₀ = k'
      · subst h1; simp [dictInsert, dictLookup]
      · simp [dictInsert, dictLookup, h1]
    · by_cases h1 : k₀ = k'
      · subst h1
        simp [dictInsert, dictLookup, h0, Ne.symm h0]
      · simp [dictInsert, dictLookup, h0, h1, ih]

theorem dictInsert_of_not_mem {α : Type} (d : List (String × α)) (k : String)
    (v : α) (h : k ∉ d.map Prod.fst) : dictInsert d k v = d ++ [(k, v)] := by
  induction d with
  | nil => simp [dictInsert]
  | cons p rest ih =>
    simp only [List.map_cons, List.mem_cons, not_or] at h
    have h' : p.1 ≠ k := fun hh => h.1 hh.symm
    simp [dictInsert, h', ih h.2]

theorem keys_dictInsert {α : Type} (d : List (String × α)) (k : String)
    (v : α) :
    (dictInsert d k v).map Prod.fst =
      if k ∈ d.map Prod.fst then d.map Prod.fst
      else d.map Prod.fst ++ [k] := by
  induction d with
  | nil => simp [dictInsert]
  | cons p rest ih =>
    obtain ⟨k₀, v₀⟩ := p
    by_cases h0 : k₀ = k
    · subst h0; simp [dictInsert]
    · have h0' : k ≠ k₀ := fun hh => h0 hh.symm
      simp only [dictInsert, if_neg h0, List.map_cons, ih, List.mem_cons,
        h0', false_or]
      by_cases h1 : k ∈ rest.map Prod.fst <;> simp [h1]

theorem keys_nodup_dictInsert {α : Type} (d : List (String × α)) (k : String)
    (v : α) (h : (d.map Prod.fst).Nodup) :
    ((dictInsert d k v).map Prod.fst).Nodup := by
  rw [keys_dictInsert]
  by_cases h1 : k ∈ d.map Prod.fst
  · rw [if_pos h1]; exact h
  · rw [if_neg h1]
    exact h.append (List.nodup_singleton k)
      (fun a ha hb => h1 ((List.mem_singleton.mp hb) ▸ ha))

theorem dictLookup_eq_none_iff {α : Type} (d : List (String × α)) (k : String) :
    dictLookup d k = none ↔ k ∉ d.map Prod.fst := by
  induction d with
  | nil => simp [dictLookup]
  | cons p rest ih =>
    obtain ⟨k₀, v₀⟩ := p
    by_cases h0 : k₀ = k
    · subst h0; simp [dictLookup]
    · have h0' : k ≠ k₀ := fun hh => h0 hh.symm
      simp [dictLookup, h0, h0', ih]

theorem dictLookup_of_mem_nodup {α : Type} (d : List (String × α))
    (k : String) (v : α) (hmem : (k, v) ∈ d)
    (hnd : (d.map Prod.fst).Nodup) : dictLookup d k = some v := by
  induction d with
  | nil => simp at hmem
  | cons p rest ih =>
    obtain ⟨k₀, v₀⟩ := p
    simp only [List.map_cons, List.nodup_cons] at hnd
    rcases List.mem_cons.mp hmem with h | h
    · injection h with hk hv
      subst hk; subst hv
      simp [dictLookup]
    · have hk0 : k₀ ≠ k := by
        intro he
        exact hnd.1 (by rw [he]; exact List.mem_map.mpr ⟨(k, v), h, rfl⟩)
      simp [dictLookup, hk0, ih h hnd.2]

theorem dictInsert_idem {α : Type} (d : List (String × α)) (k : String)
    (v : α) : dictInsert (dictInsert d k v) k v = dictInsert d k v := by
  induction d with
  | nil => simp [dictInsert]
  | cons p rest ih =>
    obtain ⟨k₀, v₀⟩ := p
    by_cases h0 : k₀ = k
    · subst h0; simp [dictInsert]
    · simp [dictInsert, h0, ih]

/-! ### Lemmas about enumeration and the mapping fold -/

theorem pyEnumerate_map_snd (i : Nat) (l : List String) :
    (pyEnumerate i l).map Prod.snd = l := by
  induction l generalizing i with
  | nil => simp [pyEnumerate]
  | cons x xs ih => simp [pyEnumerate, ih]

theorem pyEnumerate_mem_get (i : Nat) (l : List String) (j : Nat)
    (hj : j < l.length) : (i + j, l.get ⟨j, hj⟩) ∈ pyEnumerate i l := by
  induction l generalizing i j with
  | nil => simp at hj
  | cons x xs ih =>
    cases j with
    | zero => simp [pyEnumerate]
    | succ j' =>
      have hj' : j' < xs.length := by simpa using Nat.lt_of_succ_lt_succ hj
      have h2 := ih (i + 1) j' hj'
      have harith : i + (j' + 1) = (i + 1) + j' := by omega
      simp only [pyEnumerate, List.mem_cons]
      right
      simpa [harith] using h2

theorem foldl_dictInsert_of_nodup (ps : List (Nat × String))
    (acc : List (String × Nat))
    (h1 : (ps.map Prod.snd).Nodup)
    (h2 : ∀ q ∈ ps, q.2 ∉ acc.map Prod.fst) :
    ps.foldl (fun d p => dictInsert d p.2 p.1) acc =
      acc ++ ps.map (fun p => (p.2, p.1)) := by
  induction ps generalizing acc with
  | nil => simp
  | cons p rest ih =>
    obtain ⟨i, l⟩ := p
    simp only [List.map_cons, List.nodup_cons] at h1
    have hin : l ∉ acc.map Prod.fst := h2 (i, l) (List.mem_cons_self _ _)
    have h2' : ∀ q ∈ rest, q.2 ∉ (acc ++ [(l, i)]).map Prod.fst := by
      intro q hq
      simp only [List.map_append, List.mem_append, List.map_cons,
        List.map_nil, List.mem_singleton, not_or]
      refine ⟨h2 q (List.mem_cons_of_mem _ hq), fun he => h1.1 ?_⟩
      exact he ▸ List.mem_map.mpr ⟨q, hq, rfl⟩
    calc ((i, l) :: rest).foldl (fun d p => dictInsert d p.2 p.1) acc
        = rest.foldl (fun d p => dictInsert d p.2 p.1) (dictInsert acc l i) :=
          by simp
      _ = rest.foldl (fun d p => dictInsert d p.2 p.1) (acc ++ [(l, i)]) := by
          rw [dictInsert_of_not_mem acc l i hin]
      _ = (acc ++ [(l, i)]) ++ rest.map (fun p => (p.2, p.1)) :=
          ih _ h1.2 h2'
      _ = acc ++ ((i, l) :: rest).map (fun p => (p.2, p.1)) := by simp

theorem lookup_foldl_dictInsert (ps : List (Nat × String))
    (acc : List (String × Nat)) (k : String) :
    dictLookup (ps.foldl (fun d p => dictInsert d p.2 p.1) acc) k =
      match (ps.filter (fun p => p.2 == k)).getLast? with
      | some q => some q.1
      | none => dictLookup acc k := by
  induction ps generalizing acc with
  | nil => simp
  | cons p rest ih =>
    obtain ⟨i, l⟩ := p
    rw [List.foldl_cons, ih]
    by_cases hlk : l = k
    · subst hlk
      have hstep : ((i, l) :: rest).filter (fun p => p.2 == l) =
          (i, l) :: rest.filter (fun p => p.2 == l) := by
        simp [List.filter_cons]
      rw [hstep]
      rcases hfr : rest.filter (fun p => p.2 == l) with _ | ⟨q, qs⟩
      · rw [hfr]
        simp [dictLookup_dictInsert]
      · rw [hfr, List.getLast?_cons_cons]
        rcases hgl : (q :: qs).getLast? with _ | r
        · exact absurd (List.getLast?_eq_none_iff.mp hgl) (by simp)
        · rfl
    · have hcond : ((i, l).2 == k) = false := by simpa using hlk
      have hstep : ((i, l) :: rest).filter (fun p => p.2 == k) =
          rest.filter (fun p => p.2 == k) := by
        simp [List.filter_cons, hcond]
      rw [hstep]
      have heq : dictLookup (dictInsert acc l i) k = dictLookup acc k := by
        rw [dictLookup_dictInsert, if_neg hlk]
      rw [heq]

/-! ### Lemmas about the split-loading loop -/

theorem loadLanguage_ok_inv (args : Args) (dictionary : Dictionary)
    (seed : Int) (segId : Nat) (fs : FileSystem) (split lang : String)
    (m : MaskedLMDataset)
    (h : loadLanguage args dictionary seed segId fs split lang =
      Except.ok m) :
    ∃ ds, resolveShard args dictionary fs
        (pathJoin args.data (split ++ "." ++ lang)) = some ds ∧
      m = builtDataset args dictionary seed segId ds := by
  simp only [loadLanguage] at h
  cases hres : resolveShard args dictionary fs
      (pathJoin args.data (split ++ "." ++ lang)) with
  | none => rw [hres] at h; exact absurd h (by simp)
  | some ds =>
    rw [hres] at h
    simp only [Except.ok.injEq] at h
    exact ⟨ds, rfl, h.symm⟩

theorem loadLoop_fst_of_some (args : Args) (dictionary : Dictionary)
    (seed : Int) (fs : FileSystem) (split : String)
    (ps : List (String × Nat)) (k : String)
    (acc : List (String × MaskedLMDataset)) (scanned : List String) :
    (loadLoop args dictionary seed fs split ps (some k) acc scanned).1 =
      some k := by
  induction ps generalizing acc scanned with
  | nil => simp [loadLoop]
  | cons p rest ih =>
    obtain ⟨lang, segId⟩ := p
    simp only [loadLoop, Option.isNone_some, Bool.false_eq_true, if_false]
    cases hll : loadLanguage args dictionary seed segId fs split lang with
    | error e => simp [hll]
    | ok m => simp [hll, ih]

theorem loadLoop_fst (args : Args) (dictionary : Dictionary) (seed : Int)
    (fs : FileSystem) (split : String) (ps : List (String × Nat))
    (dk : Option String) (acc : List (String × MaskedLMDataset))
    (scanned : List String) :
    (loadLoop args dictionary seed fs split ps dk acc scanned).1 =
      match ps with
      | [] => dk
      | (l, _) :: _ => if dk.isNone then some l else dk := by
  cases ps with
  | nil => simp [loadLoop]
  | cons p rest =>
    obtain ⟨lang, segId⟩ := p
    cases dk with
    | none =>
      simp only [loadLoop, Option.isNone_none, if_true]
      cases hll : loadLanguage args dictionary seed segId fs split lang with
      | error e => simp [hll]
      | ok m => simp [hll, loadLoop_fst_of_some]
    | some k =>
      simp only [loadLoop, Option.isNone_some, Bool.false_eq_true, if_false]
      cases hll : loadLanguage args dictionary seed segId fs split lang with
      | error e => simp [hll]
      | ok m => simp [hll, loadLoop_fst_of_some]

theorem loadLoop_snd_indep (args : Args) (dictionary : Dictionary)
    (seed : Int) (fs : FileSystem) (split : String)
    (ps : List (String × Nat)) (dk dk' : Option String)
    (acc : List (String × MaskedLMDataset)) (scanned : List String) :
    (loadLoop args dictionary seed fs split ps dk acc scanned).2 =
      (loadLoop args dictionary seed fs split ps dk' acc scanned).2 := by
  induction ps generalizing dk dk' acc scanned with
  | nil => simp [loadLoop]
  | cons p rest ih =>
    obtain ⟨lang, segId⟩ := p
    simp only [loadLoop]
    cases hll : loadLanguage args dictionary seed segId fs split lang with
    | error e => simp [hll]
    | ok m =>
      simp only [hll]
      exact ih _ _ _ _

theorem loadLoop_ok_mem (args : Args) (dictionary : Dictionary) (seed : Int)
    (fs : FileSystem) (split : String) (ps : List (String × Nat))
    (dk dk1 : Option String) (acc dmap : List (String × MaskedLMDataset))
    (scanned sc1 : List String)
    (h : loadLoop args dictionary seed fs split ps dk acc scanned =
      (dk1, sc1, Except.ok dmap))
    (lang : String) (m : MaskedLMDataset) (hm : (lang, m) ∈ dmap) :
    (lang, m) ∈ acc ∨
      ∃ segId, (lang, segId) ∈ ps ∧
        loadLanguage args dictionary seed segId fs split lang =
          Except.ok m := by
  induction ps generalizing dk acc scanned with
  | nil =>
    simp only [loadLoop, Prod.mk.injEq, Except.ok.injEq] at h
    exact Or.inl (h.2.2 ▸ hm)
  | cons p rest ih =>
    obtain ⟨plang, psegId⟩ := p
    simp only [loadLoop] at h
    cases hll : loadLanguage args dictionary seed psegId fs split plang with
    | error e => rw [hll] at h; exact absurd h (by simp)
    | ok m0 =>
      rw [hll] at h
      rcases ih _ _ _ h with hacc | ⟨segId, hseg, hok⟩
      · rcases List.mem_append.mp hacc with h1 | h1
        · exact Or.inl h1
        · rcases List.mem_singleton.mp h1 with h2
          injection h2 with h2a h2b
          subst h2a; subst h2b
          exact Or.inr ⟨psegId, List.mem_cons_self _ _, hll⟩
      · exact Or.inr ⟨segId, List.mem_cons_of_mem _ hseg, hok⟩

theorem keys_nodup_foldl (ps : List (Nat × String)) (acc : List (String × Nat))
    (h : (acc.map Prod.fst).Nodup) :
    ((ps.foldl (fun d p => dictInsert d p.2 p.1) acc).map Prod.fst).Nodup := by
  induction ps generalizing acc with
  | nil => exact h
  | cons p rest ih => exact ih _ (keys_nodup_dictInsert _ _ _ h)

theorem load_dataset_default_key_eq (t : CrossLingualLMTask) (fs : FileSystem)
    (split : String) :
    (load_dataset t fs split).task.default_key =
      (loadLoop t.args t.dictionary t.seed fs split t.langs2id t.default_key
        [] []).1 := by
  unfold load_dataset
  rcases hl : loadLoop t.args t.dictionary t.seed fs split t.langs2id
      t.default_key [] [] with ⟨dk, sc, r⟩
  cases r <;> rfl

theorem load_dataset_preserves (t : CrossLingualLMTask) (fs : FileSystem)
    (split : String) :
    (load_dataset t fs split).task.args = t.args ∧
    (load_dataset t fs split).task.dictionary = t.dictionary ∧
    (load_dataset t fs split).task.seed = t.seed ∧
    (load_dataset t fs split).task.langs2id = t.langs2id := by
  unfold load_dataset
  rcases hl : loadLoop t.args t.dictionary t.seed fs split t.langs2id
      t.default_key [] [] with ⟨dk, sc, r⟩
  cases r <;> exact ⟨rfl, rfl, rfl, rfl⟩

theorem loadLoop_shuffle_attr (t : CrossLingualLMTask) (fs : FileSystem)
    (split : String) (ps : List (String × Nat)) (dk : Option String)
    (acc : List (String × MaskedLMDataset)) (scanned : List String) :
    loadLoop { t.args with shuffle := none } t.dictionary t.seed fs split ps
        dk acc scanned =
      loadLoop { t.args with shuffle := some false } t.dictionary t.seed fs
        split ps dk acc scanned := by
  induction ps generalizing dk acc scanned with
  | nil => rfl
  | cons p rest ih =>
    obtain ⟨lang, segId⟩ := p
    have hll : loadLanguage { t.args with shuffle := none } t.dictionary
        t.seed segId fs split lang =
        loadLanguage { t.args with shuffle := some false } t.dictionary
          t.seed segId fs split lang := rfl
    simp only [loadLoop, hll]
    cases hl2 : loadLanguage { t.args with shuffle := some false }
        t.dictionary t.seed segId fs split lang with
    | error e => rfl
    | ok m => exact ih _ _ _

/-! ### Claim theorems -/

/-- C1: for every comma-separated language string whose trimmed entries
are pairwise distinct, the mapping built at construction is exactly the
left-to-right enumeration of the trimmed entries, so the `j`-th entry
(0-based) is assigned id `j`: ids `0..n-1` in input order. -/
theorem lang_to_id_assigns_ids_in_order (languages : String)
    (h : (trimmedLangs languages).Nodup) :
    lang_to_id languages =
      (pyEnumerate 0 (trimmedLangs languages)).map (fun p => (p.2, p.1)) ∧
    ∀ j (hj : j < (trimmedLangs languages).length),
      dictLookup (lang_to_id languages)
        ((trimmedLangs languages).get ⟨j, hj⟩) = some j := by
  have hkeys : ((pyEnumerate 0 (trimmedLangs languages)).map Prod.snd).Nodup :=
    by rw [pyEnumerate_map_snd]; exact h
  have heq : lang_to_id languages =
      (pyEnumerate 0 (trimmedLangs languages)).map (fun p => (p.2, p.1)) := by
    simp only [lang_to_id]
    rw [foldl_dictInsert_of_nodup _ _ hkeys (by simp)]
    simp
  refine ⟨heq, fun j hj => ?_⟩
  rw [heq]
  apply dictLookup_of_mem_nodup
  · exact List.mem_map.mpr
      ⟨(0 + j, (trimmedLangs languages).get ⟨j, hj⟩),
        pyEnumerate_mem_get 0 (trimmedLangs languages) j hj, by simp⟩
  · rw [List.map_map]
    simpa [Function.comp] using hkeys

/-- C1 witness: the spec's example `"en, fr,de"` yields
`{en: 0, fr: 1, de: 2}`. -/
theorem lang_to_id_assigns_ids_in_order_witness :
    (trimmedLangs "en, fr,de").Nodup ∧
      lang_to_id "en, fr,de" = [("en", 0), ("fr", 1), ("de", 2)] :=
  ⟨by decide,
    ((lang_to_id_assigns_ids_in_order "en, fr,de" (by decide)).1).trans
      (by decide)⟩

/-- C2: per-language shard resolution in a split load: with raw-text
mode set and a raw-text shard present at `<data>/<split>.<lang>`, the
raw-text dataset is built; with raw-text mode off and a binary-indexed
shard present, the lazy or fully-cached indexed dataset is built
according to the lazy-load flag; and the dataset-not-found error (whose
payload names `<split>.<lang>` and the data directory) is raised if and
only if no shard of the applicable format exists at that path. -/
theorem shard_resolution_cases (args : Args) (dictionary : Dictionary)
    (seed : Int) (segId : Nat) (fs : FileSystem) (split lang : String) :
    (args.raw_text = true →
      fs.rawTextExists (pathJoin args.data (split ++ "." ++ lang)) = true →
      loadLanguage args dictionary seed segId fs split lang =
        Except.ok (builtDataset args dictionary seed segId
          (ShardDataset.rawText (pathJoin args.data (split ++ "." ++ lang))
            dictionary))) ∧
    (args.raw_text = false →
      fs.indexedExists (pathJoin args.data (split ++ "." ++ lang)) = true →
      loadLanguage args dictionary seed segId fs split lang =
        Except.ok (builtDataset args dictionary seed segId
          (if args.lazy_load then
            ShardDataset.indexedLazy
              (pathJoin args.data (split ++ "." ++ lang)) true
          else
            ShardDataset.indexedCached
              (pathJoin args.data (split ++ "." ++ lang)) true))) ∧
    (loadLanguage args dictionary seed segId fs split lang =
        Except.error ⟨split ++ "." ++ lang, args.data⟩ ↔
      (if args.raw_text then
          fs.rawTextExists (pathJoin args.data (split ++ "." ++ lang))
        else
          fs.indexedExists (pathJoin args.data (split ++ "." ++ lang))) =
        false) := by
  refine ⟨fun hraw hex => ?_, fun hraw hex => ?_, ?_⟩
  · simp [loadLanguage, resolveShard, builtDataset, hraw, hex]
  · cases hlz : args.lazy_load with
    | false => simp [loadLanguage, resolveShard, builtDataset, hraw, hex, hlz]
    | true => simp [loadLanguage, resolveShard, builtDataset, hraw, hex, hlz]
  · cases hraw : args.raw_text with
    | true =>
      cases hex : fs.rawTextExists (pathJoin args.data (split ++ "." ++ lang))
      · simp [loadLanguage, resolveShard, hraw, hex]
      · simp [loadLanguage, resolveShard, hraw, hex]
    | false =>
      cases hex : fs.indexedExists (pathJoin args.data (split ++ "." ++ lang))
      · simp [loadLanguage, resolveShard, hraw, hex]
      · cases hlz : args.lazy_load
        · simp [loadLanguage, resolveShard, hraw, hex, hlz]
        · simp [loadLanguage, resolveShard, hraw, hex, hlz]

/-- C2 witness: with raw-text mode off and the binary shard
`data/train.en` present, the per-language load succeeds with the
fully-cached indexed dataset (lazy-load flag off). -/
theorem shard_resolution_cases_witness :
    loadLanguage args0 dict0 1 0 fs1 "train" "en" =
      Except.ok (builtDataset args0 dict0 1 0
        (if args0.lazy_load then
          ShardDataset.indexedLazy
            (pathJoin args0.data ("train" ++ "." ++ "en")) true
        else
          ShardDataset.indexedCached
            (pathJoin args0.data ("train" ++ "." ++ "en")) true)) :=
  (shard_resolution_cases args0 dict0 1 0 fs1 "train" "en").2.1
    (by decide) (by decide)

/-- C3: when a split load raises the dataset-not-found error, the
per-split registry is left exactly as it was: no entry is created or
modified for that split (or any other). -/
theorem load_error_leaves_registry (t : CrossLingualLMTask) (fs : FileSystem)
    (split : String)
    (h : (load_dataset t fs split).error.isSome = true) :
    (load_dataset t fs split).task.datasets = t.datasets := by
  unfold load_dataset at h ⊢
  rcases hl : loadLoop t.args t.dictionary t.seed fs split t.langs2id
      t.default_key [] [] with ⟨dk, sc, r⟩
  cases r with
  | error e => rfl
  | ok dmap => rw [hl] at h; simp at h

/-- C3 witness: loading `train` over an empty filesystem raises and
leaves the registry empty. -/
theorem load_error_leaves_registry_witness :
    (load_dataset t0 fs0 "train").error.isSome = true ∧
      (load_dataset t0 fs0 "train").task.datasets = t0.datasets :=
  ⟨by decide, load_error_leaves_registry t0 fs0 "train" (by decide)⟩

/-- C4 counterexample: a second load of an already-loaded split is NOT a
side-effect-free cache hit. After successfully loading and registering
split `train`, a repeated `load_dataset` call still checks shard paths
on disk (its scan trace is non-empty), and if the shards have meanwhile
disappeared it raises the dataset-not-found error instead of returning
the cached merged dataset. -/
theorem second_load_not_cache_hit :
    (load_dataset t0 fs1 "train").error = none ∧
    (dictLookup (load_dataset t0 fs1 "train").task.datasets "train").isSome
      = true ∧
    (load_dataset (load_dataset t0 fs1 "train").task fs1 "train").scanned
      ≠ [] ∧
    LoadResult.error
      (load_dataset (load_dataset t0 fs1 "train").task fs0 "train") ≠ none :=
  by refine ⟨by decide, by decide, by decide, by decide⟩

/-- C4 amended: `load_dataset` never consults the registry — a repeated
load of the same split re-scans the filesystem (same scan trace as the
first load) and rebuilds the split's entry; when the filesystem is
unchanged the rebuilt entry (and the whole task state) is identical to
the cached one, so reloading is idempotent in value, though not a
filesystem-free cache hit. -/
theorem reload_same_fs_idempotent (t : CrossLingualLMTask) (fs : FileSystem)
    (split : String) (h : (load_dataset t fs split).error = none) :
    (load_dataset (load_dataset t fs split).task fs split).task =
      (load_dataset t fs split).task ∧
    (load_dataset (load_dataset t fs split).task fs split).error = none ∧
    (load_dataset (load_dataset t fs split).task fs split).scanned =
      (load_dataset t fs split).scanned := by
  rcases hl : loadLoop t.args t.dictionary t.seed fs split t.langs2id
      t.default_key [] [] with ⟨dk1, sc1, r1⟩
  cases r1 with
  | error e =>
    unfold load_dataset at h
    rw [hl] at h
    simp at h
  | ok dmap =>
    have ht1 : (load_dataset t fs split).task =
        { t with default_key := dk1
                 datasets := dictInsert t.datasets split ⟨dmap, dk1⟩ } := by
      unfold load_dataset
      rw [hl]
    have hsc : (load_dataset t fs split).scanned = sc1 := by
      unfold load_dataset
      rw [hl]
    have h2snd : (loadLoop t.args t.dictionary t.seed fs split t.langs2id dk1
        [] []).2 = (sc1, Except.ok dmap) := by
      rw [loadLoop_snd_indep t.args t.dictionary t.seed fs split t.langs2id
        dk1 t.default_key [] [], hl]
    have h1fst : (loadLoop t.args t.dictionary t.seed fs split t.langs2id
        t.default_key [] []).1 = dk1 := by rw [hl]
    have h2fst : (loadLoop t.args t.dictionary t.seed fs split t.langs2id dk1
        [] []).1 = dk1 := by
      cases hdk1 : dk1 with
      | some k =>
        exact loadLoop_fst_of_some t.args t.dictionary t.seed fs split
          t.langs2id k [] []
      | none =>
        rw [hdk1] at h1fst
        rw [loadLoop_fst]
        rw [loadLoop_fst] at h1fst
        generalize t.langs2id = ps at h1fst ⊢
        cases ps with
        | nil => rfl
        | cons p rest =>
          obtain ⟨l, i⟩ := p
          simp only at h1fst ⊢
          cases hdk0 : t.default_key with
          | none => rw [hdk0] at h1fst; simp at h1fst
          | some k => rw [hdk0] at h1fst; simp at h1fst
    have h2 : loadLoop t.args t.dictionary t.seed fs split t.langs2id dk1
        [] [] = (dk1, sc1, Except.ok dmap) := by
      rcases hl2 : loadLoop t.args t.dictionary t.seed fs split t.langs2id dk1
          [] [] with ⟨a, b, c⟩
      rw [hl2] at h2snd h2fst
      simp only [Prod.mk.injEq] at h2snd h2fst ⊢
      exact ⟨h2fst, h2snd⟩
    rw [ht1, hsc]
    unfold load_dataset
    rw [h2]
    refine ⟨?_, rfl, rfl⟩
    simp [dictInsert_idem]

/-- C4 amended witness: reloading `train` against the unchanged
filesystem returns the task to the identical state. -/
theorem reload_same_fs_idempotent_witness :
    (load_dataset (load_dataset t0 fs1 "train").task fs1 "train").task =
      (load_dataset t0 fs1 "train").task :=
  (reload_same_fs_idempotent t0 fs1 "train" (by decide)).1

/-- C5: the first language iterated during the first split load becomes
the instance's default key; once set, the default key never changes on
any later load; and on every successful load the merged dataset
registered for the split carries the instance's default key. -/
theorem default_key_first_language_fixed (t : CrossLingualLMTask)
    (fs : FileSystem) (split : String) :
    (t.default_key = none →
      ∀ l i rest, t.langs2id = (l, i) :: rest →
        (load_dataset t fs split).task.default_key = some l) ∧
    (∀ k, t.default_key = some k →
      (load_dataset t fs split).task.default_key = some k) ∧
    (∀ mc, (load_dataset t fs split).error = none →
      dictLookup (load_dataset t fs split).task.datasets split = some mc →
      mc.default_key = (load_dataset t fs split).task.default_key) := by
  refine ⟨fun h0 l i rest hps => ?_, fun k hk => ?_, fun mc herr hmc => ?_⟩
  · rw [load_dataset_default_key_eq, loadLoop_fst, hps, h0]
    rfl
  · rw [load_dataset_default_key_eq, loadLoop_fst]
    rcases t.langs2id with _ | ⟨⟨l, i⟩, rest⟩ <;> simp [hk]
  · rw [load_dataset_default_key_eq]
    unfold load_dataset at herr hmc
    rcases hl : loadLoop t.args t.dictionary t.seed fs split t.langs2id
        t.default_key [] [] with ⟨dk, sc, r⟩
    cases r with
    | error e => rw [hl] at herr; simp at herr
    | ok dmap =>
      rw [hl] at hmc
      simp only at hmc
      rw [dictLookup_dictInsert, if_pos rfl] at hmc
      injection hmc with hmc
      rw [← hmc]

/-- C5 witness: on a fresh task over `en,fr`, the first load fixes the
default key to `en`. -/
theorem default_key_first_language_fixed_witness :
    (load_dataset t0 fs1 "train").task.default_key = some "en" :=
  (default_key_first_language_fixed t0 fs1 "train").1 (by decide) "en" 0
    [("fr", 1)] (by decide)

/-- C6: on every successful split load, every per-language dataset
registered for the split wraps its shard in a block segmenter with block
size exactly `tokens_per_sample - 1`, with the vocabulary's padding and
end-of-sequence ids as boundary markers. -/
theorem block_size_is_tokens_per_sample_minus_one (t : CrossLingualLMTask)
    (fs : FileSystem) (split : String)
    (herr : (load_dataset t fs split).error = none)
    (mc : MultiCorpusSampledDataset)
    (hmc : dictLookup (load_dataset t fs split).task.datasets split = some mc)
    (lang : String) (m : MaskedLMDataset)
    (hm : (lang, m) ∈ mc.dataset_map) :
    m.dataset.block_size = t.args.tokens_per_sample - 1 ∧
    m.dataset.pad = t.dictionary.pad ∧
    m.dataset.eos = t.dictionary.eos := by
  unfold load_dataset at herr hmc
  rcases hl : loadLoop t.args t.dictionary t.seed fs split t.langs2id
      t.default_key [] [] with ⟨dk, sc, r⟩
  cases r with
  | error e => rw [hl] at herr; simp at herr
  | ok dmap =>
    rw [hl] at hmc
    simp only at hmc
    rw [dictLookup_dictInsert, if_pos rfl] at hmc
    injection hmc with hmc
    rw [← hmc] at hm
    simp only at hm
    rcases loadLoop_ok_mem t.args t.dictionary t.seed fs split t.langs2id
        t.default_key dk [] dmap [] sc hl lang m hm with
      hacc | ⟨segId, hseg, hok⟩
    · simp at hacc
    · obtain ⟨ds, hres, hm'⟩ := loadLanguage_ok_inv t.args t.dictionary t.seed
        segId fs split lang m hok
      subst hm'
      exact ⟨rfl, rfl, rfl⟩

/-- C6 witness: `tokens_per_sample = 128` yields 127-token blocks for the
`en` dataset of the loaded `train` split. -/
theorem block_size_is_tokens_per_sample_minus_one_witness :
    m0.dataset.block_size = t0.args.tokens_per_sample - 1 ∧
    m0.dataset.pad = t0.dictionary.pad ∧
    m0.dataset.eos = t0.dictionary.eos :=
  block_size_is_tokens_per_sample_minus_one t0 fs1 "train" (by decide) mc0
    (by decide) "en" m0 (by decide)

/-- C7: on every successful split load, each per-language example
builder carries as its segment id exactly the id assigned to its
language by the language-to-id mapping, whatever the split. -/
theorem segment_id_matches_language (t : CrossLingualLMTask) (fs : FileSystem)
    (split : String) (hnd : (t.langs2id.map Prod.fst).Nodup)
    (herr : (load_dataset t fs split).error = none)
    (mc : MultiCorpusSampledDataset)
    (hmc : dictLookup (load_dataset t fs split).task.datasets split = some mc)
    (lang : String) (m : MaskedLMDataset)
    (hm : (lang, m) ∈ mc.dataset_map) :
    dictLookup t.langs2id lang = some m.segment_id := by
  unfold load_dataset at herr hmc
  rcases hl : loadLoop t.args t.dictionary t.seed fs split t.langs2id
      t.default_key [] [] with ⟨dk, sc, r⟩
  cases r with
  | error e => rw [hl] at herr; simp at herr
  | ok dmap =>
    rw [hl] at hmc
    simp only at hmc
    rw [dictLookup_dictInsert, if_pos rfl] at hmc
    injection hmc with hmc
    rw [← hmc] at hm
    simp only at hm
    rcases loadLoop_ok_mem t.args t.dictionary t.seed fs split t.langs2id
        t.default_key dk [] dmap [] sc hl lang m hm with
      hacc | ⟨segId, hseg, hok⟩
    · simp at hacc
    · obtain ⟨ds, hres, hm'⟩ := loadLanguage_ok_inv t.args t.dictionary t.seed
        segId fs split lang m hok
      subst hm'
      exact dictLookup_of_mem_nodup t.langs2id lang segId hseg hnd

/-- C7 witness: in the loaded `train` split, the `en` dataset's segment
id is the id of `en` in the mapping. -/
theorem segment_id_matches_language_witness :
    dictLookup t0.langs2id "en" = some m0.segment_id :=
  segment_id_matches_language t0 fs1 "train" (by decide) (by decide) mc0
    (by decide) "en" m0 (by decide)

/-- C8: for every comma-separated language string — in particular one
with duplicate codes after trimming — the mapping has pairwise-distinct
keys, its key set is exactly the set of trimmed entries (one entry per
distinct code), and each code is mapped to the id of its last
(rightmost) occurrence in the trimmed list. -/
theorem duplicate_langs_collapse_to_last (languages lang : String) :
    ((lang_to_id languages).map Prod.fst).Nodup ∧
    (lang ∈ (lang_to_id languages).map Prod.fst ↔
      lang ∈ trimmedLangs languages) ∧
    dictLookup (lang_to_id languages) lang =
      ((pyEnumerate 0 (trimmedLangs languages)).filter
        (fun p => p.2 == lang)).getLast?.map Prod.fst := by
  have hc : dictLookup (lang_to_id languages) lang =
      ((pyEnumerate 0 (trimmedLangs languages)).filter
        (fun p => p.2 == lang)).getLast?.map Prod.fst := by
    simp only [lang_to_id]
    rw [lookup_foldl_dictInsert]
    generalize ((pyEnumerate 0 (trimmedLangs languages)).filter
        (fun p => p.2 == lang)).getLast? = o
    cases o with
    | none => rfl
    | some q => rfl
  refine ⟨?_, ?_, hc⟩
  · simp only [lang_to_id]
    exact keys_nodup_foldl _ _ (by simp)
  · rw [← not_iff_not, ← dictLookup_eq_none_iff, hc, Option.map_eq_none',
      List.getLast?_eq_none_iff, List.filter_eq_nil_iff]
    constructor
    · intro hall hmem
      have hmem' : lang ∈ (pyEnumerate 0 (trimmedLangs languages)).map
          Prod.snd := by
        rw [pyEnumerate_map_snd]
        exact hmem
      rcases List.mem_map.mp hmem' with ⟨p, hp, hpe⟩
      exact hall p hp (by simp [hpe])
    · intro hnm p hp hbe
      apply hnm
      rw [← pyEnumerate_map_snd 0 (trimmedLangs languages)]
      exact List.mem_map.mpr ⟨p, hp, by simpa using hbe⟩

/-- C9: a failing split load on an instance whose default key is unset
still sets the default key to the first iterated language before
raising, and any later load keeps that key. -/
theorem failed_load_still_sets_default_key (t : CrossLingualLMTask)
    (fs : FileSystem) (split : String) (hdk : t.default_key = none)
    (l : String) (i : Nat) (rest : List (String × Nat))
    (hps : t.langs2id = (l, i) :: rest)
    (he : (load_dataset t fs split).error.isSome = true) :
    (load_dataset t fs split).task.default_key = some l ∧
    ∀ fs' split',
      (load_dataset (load_dataset t fs split).task fs' split').task.default_key
        = some l := by
  have h1 : (load_dataset t fs split).task.default_key = some l := by
    rw [load_dataset_default_key_eq, loadLoop_fst, hps, hdk]
    rfl
  refine ⟨h1, fun fs' split' => ?_⟩
  rw [load_dataset_default_key_eq, loadLoop_fst, h1]
  generalize (load_dataset t fs split).task.langs2id = ps
  cases ps with
  | nil => rfl
  | cons p rest2 =>
    obtain ⟨a, b⟩ := p
    rfl

/-- C9 witness: the first load of a fresh task over an empty filesystem
raises, yet fixes the default key to `en`. -/
theorem failed_load_still_sets_default_key_witness :
    (load_dataset t0 fs0 "train").task.default_key = some "en" :=
  (failed_load_still_sets_default_key t0 fs0 "train" (by decide) "en" 0
    [("fr", 1)] (by decide) (by decide)).1

/-- C10: a configuration bundle with no shuffle attribute at all loads
exactly like one whose shuffle flag is present and false: same error
outcome, same filesystem scan trace, same resulting default key and
per-split registry. -/
theorem missing_shuffle_attr_behaves_as_false (t : CrossLingualLMTask)
    (fs : FileSystem) (split : String) :
    (load_dataset (setShuffle t none) fs split).error =
      (load_dataset (setShuffle t (some false)) fs split).error ∧
    (load_dataset (setShuffle t none) fs split).scanned =
      (load_dataset (setShuffle t (some false)) fs split).scanned ∧
    (load_dataset (setShuffle t none) fs split).task.default_key =
      (load_dataset (setShuffle t (some false)) fs split).task.default_key ∧
    (load_dataset (setShuffle t none) fs split).task.datasets =
      (load_dataset (setShuffle t (some false)) fs split).task.datasets := by
  have hloop := loadLoop_shuffle_attr t fs split t.langs2id t.default_key [] []
  unfold load_dataset
  simp only [setShuffle]
  rw [hloop]
  rcases hl2 : loadLoop { t.args with shuffle := some false } t.dictionary
      t.seed fs split t.langs2id t.default_key [] [] with ⟨dk, sc, r⟩
  cases r with
  | error e => exact ⟨rfl, rfl, rfl, rfl⟩
  | ok dmap => exact ⟨rfl, rfl, rfl, rfl⟩

end CrossLingualLM
